import Mathlib

/-
Verification of the AnimationAPI module (script.js): a shallow embedding of
the AnimationController frame loop, the TouchHandler gesture recognizer,
the breakpoint classifier and the listener registry, together with theorems
settling the spec claims about them.

Machine numbers are modelled as exact rationals.  Event callbacks are
modelled by recording the emitted events in a list, in emission order.
-/

/- Section 1: touch gesture model (TouchHandler). -/

/-- A point with clientX / clientY coordinates, as carried by a touch. -/
structure Point where
  x : ℚ
  y : ℚ
deriving DecidableEq

/-- The touchStart record: start point plus the performance.now timestamp. -/
structure StartPoint where
  x : ℚ
  y : ℚ
  time : ℚ
deriving DecidableEq

/-- The touch part of the module configuration (config.touch), merged into
each TouchHandler instance.  damping is declared in the source but never
read. -/
structure TouchOptions where
  threshold : ℚ
  maxVelocity : ℚ
  damping : ℚ
deriving DecidableEq

/-- Default config.touch: threshold 10, maxVelocity 10, damping 0.95. -/
def configTouch : TouchOptions :=
  { threshold := 10, maxVelocity := 10, damping := 0.95 }

/-- The mutable state of a TouchHandler instance. -/
structure TouchHandler where
  options : TouchOptions
  touchStart : StartPoint
  touchCurrent : Point
  isDragging : Bool
  velocity : Point
deriving DecidableEq

/-- State of a freshly constructed TouchHandler with default options. -/
def initTouchHandler : TouchHandler :=
  { options := configTouch
    touchStart := { x := 0, y := 0, time := 0 }
    touchCurrent := { x := 0, y := 0 }
    isDragging := false
    velocity := { x := 0, y := 0 } }

/-- Events emitted through trigger.  The source names them with the strings
for touchstart, touchmove, tap, swipe and touchend; the touchmove payload
carries position, delta and distance.  Here dist2 is the square of the
distance the source carries (the source computes Math.sqrt of it; no claim
inspects this field, and the square keeps every number rational). -/
inductive TEvent where
  | touchstart (x y : ℚ)
  | touchmove (x y deltaX deltaY dist2 : ℚ)
  | tap (x y : ℚ)
  | swipe (x y velocityX velocityY : ℚ)
  | touchend
deriving DecidableEq

/-- Recognizer for swipe events. -/
def TEvent.isSwipe : TEvent → Bool
  | .swipe _ _ _ _ => true
  | _ => false

/-- Recognizer for tap events. -/
def TEvent.isTap : TEvent → Bool
  | .tap _ _ => true
  | _ => false

/-- Recognizer for touchmove events. -/
def TEvent.isTouchmove : TEvent → Bool
  | .touchmove _ _ _ _ _ => true
  | _ => false

/-- The comparison Math.sqrt a > t, expressed without square roots: for
a nonnegative radicand a it is equivalent to t < 0 or t * t < a.  The
source compares the Euclidean distance (a square root) with the threshold;
this predicate applies that comparison to the squared distance. -/
def sqrtGtB (a t : ℚ) : Bool :=
  decide (t < 0) || decide (t * t < a)

/-- onTouchStart: record the start point and timestamp, reset the dragging
flag, emit the touchstart event.  The velocity field is not touched. -/
def onTouchStart (x y now : ℚ) (st : TouchHandler) : TouchHandler × List TEvent :=
  let st1 := { st with
    touchStart := { x := x, y := y, time := now }
    touchCurrent := { x := x, y := y }
    isDragging := false }
  (st1, [TEvent.touchstart x y])

/-- onTouchMove: return early when the touch list is empty; otherwise take
the first touch, measure the distance from the start point, enter dragging
once it exceeds the threshold, and while dragging update the current point,
update the velocity (displacement divided by time since start, only when
that time is positive) and emit the touchmove event. -/
def onTouchMove (touches : List Point) (now : ℚ) (st : TouchHandler) :
    TouchHandler × List TEvent :=
  match touches with
  | [] => (st, [])
  | touch :: _ =>
    let deltaX := touch.x - st.touchStart.x
    let deltaY := touch.y - st.touchStart.y
    let dist2 := deltaX * deltaX + deltaY * deltaY
    let st1 := if sqrtGtB dist2 st.options.threshold then
        { st with isDragging := true } else st
    if st1.isDragging then
      let timeDelta := now - st.touchStart.time
      let st2 := { st1 with
        touchCurrent := { x := touch.x, y := touch.y }
        velocity := if 0 < timeDelta then
            { x := deltaX / timeDelta, y := deltaY / timeDelta }
          else st1.velocity }
      (st2, [TEvent.touchmove touch.x touch.y deltaX deltaY dist2])
    else
      (st1, [])

/-- onTouchEnd: emit tap at the start point when the gesture never entered
dragging, otherwise emit swipe at the current point with each velocity axis
passed through Math.min against maxVelocity; then reset the dragging flag
and the velocity and emit the terminal touchend event. -/
def onTouchEnd (st : TouchHandler) : TouchHandler × List TEvent :=
  let evs :=
    if !st.isDragging then
      [TEvent.tap st.touchStart.x st.touchStart.y]
    else
      [TEvent.swipe st.touchCurrent.x st.touchCurrent.y
        (min st.velocity.x st.options.maxVelocity)
        (min st.velocity.y st.options.maxVelocity)]
  ({ st with isDragging := false, velocity := { x := 0, y := 0 } },
   evs ++ [TEvent.touchend])

/-- onMouseDown: forwarded to onTouchStart with a single synthetic touch. -/
def onMouseDown (x y now : ℚ) (st : TouchHandler) : TouchHandler × List TEvent :=
  onTouchStart x y now st

/-- onMouseMove: returns early unless isDragging is already true, otherwise
forwarded to onTouchMove with a single synthetic touch. -/
def onMouseMove (x y now : ℚ) (st : TouchHandler) : TouchHandler × List TEvent :=
  if !st.isDragging then (st, [])
  else onTouchMove [{ x := x, y := y }] now st

/-- onMouseUp: forwarded to onTouchEnd. -/
def onMouseUp (st : TouchHandler) : TouchHandler × List TEvent :=
  onTouchEnd st

/-- Whether a single touchmove input (touch list plus timestamp) makes the
threshold check fire, measured from a given start point: true when the
first touch of the list lies at squared distance whose square root exceeds
the threshold. -/
def trig (startX startY thr : ℚ) (m : List Point × ℚ) : Bool :=
  match m.1 with
  | [] => false
  | touch :: _ =>
    sqrtGtB ((touch.x - startX) * (touch.x - startX) +
      (touch.y - startY) * (touch.y - startY)) thr

/-- Feed a list of touchmove inputs (touch list, timestamp) to a handler,
collecting the emitted events in order. -/
def runMoves (st : TouchHandler) : List (List Point × ℚ) → TouchHandler × List TEvent
  | [] => (st, [])
  | (ts, now) :: rest =>
    let r := onTouchMove ts now st
    let r2 := runMoves r.1 rest
    (r2.1, r.2 ++ r2.2)

/-- One full touch gesture: touchstart at (x, y) at time t0, a list of
touchmove inputs, then touchend.  Returns the final state and every event
emitted during the gesture, in order. -/
def runGesture (x y t0 : ℚ) (moves : List (List Point × ℚ)) (st0 : TouchHandler) :
    TouchHandler × List TEvent :=
  let r1 := onTouchStart x y t0 st0
  let r2 := runMoves r1.1 moves
  let r3 := onTouchEnd r2.1
  (r3.1, r1.2 ++ r2.2 ++ r3.2)

/-- Feed a list of mousemove inputs (point, timestamp) to a handler. -/
def runMouseMoves (st : TouchHandler) : List (Point × ℚ) → TouchHandler × List TEvent
  | [] => (st, [])
  | (p, now) :: rest =>
    let r := onMouseMove p.x p.y now st
    let r2 := runMouseMoves r.1 rest
    (r2.1, r.2 ++ r2.2)

/-- One full mouse gesture: mousedown at (x, y) at time t0, a list of
mousemove inputs, then mouseup. -/
def runMouseGesture (x y t0 : ℚ) (moves : List (Point × ℚ)) (st0 : TouchHandler) :
    TouchHandler × List TEvent :=
  let r1 := onMouseDown x y t0 st0
  let r2 := runMouseMoves r1.1 moves
  let r3 := onMouseUp r2.1
  (r3.1, r1.2 ++ r2.2 ++ r3.2)

/- Section 2: animation model (AnimationController). -/

/-- The bezier method: cubic Bezier y-coordinate with the raw progress t
plugged directly as the curve parameter.  The x control points are accepted
and ignored exactly as in the source. -/
def bezier (t p1x p1y p2x p2y : ℚ) : ℚ :=
  let mt := 1 - t
  let mt2 := mt * mt
  let mt3 := mt2 * mt
  let t2 := t * t
  let t3 := t2 * t
  mt3 * 0 + 3 * mt2 * t * p1y + 3 * mt * t2 * p2y + t3 * 1

/-- getEasedProgress: the source hardcodes the control points
(0.4, 0, 0.2, 1); no instance option is consulted. -/
def getEasedProgress (t : ℚ) : ℚ :=
  bezier t 0.4 0 0.2 1

/-- Modelled from the spec: the eased progress the spec describes, namely
the Bezier formula evaluated at the configured control-point y-values p1y
and p2y, claimed to be overridable per instance.  Used only to compare the
claim against the source behavior. -/
def specEasedProgress (p1y p2y t : ℚ) : ℚ :=
  3 * (1 - t) ^ 2 * t * p1y + 3 * (1 - t) * t ^ 2 * p2y + t ^ 3

/-- Observable events of one animation session: the onUpdate calls with
their (value, progress) arguments, and the onComplete call. -/
inductive AEvent where
  | update (v p : ℚ)
  | complete
deriving DecidableEq

/-- The animate frame loop, run over the list of frame timestamps the
scheduler delivers, in order.  Each frame computes the elapsed time, the
progress min(elapsed / duration, 1), the eased interpolated value, and
calls onUpdate; while progress < 1 the loop reschedules for the next
timestamp, otherwise it calls onUpdate(to, 1), then onComplete, and stops
requesting frames (remaining timestamps are not observed). -/
def animate (startTime duration from_ to_ : ℚ) : List ℚ → List AEvent
  | [] => []
  | currentTime :: rest =>
    let elapsed := currentTime - startTime
    let progress := min (elapsed / duration) 1
    let easeProgress := getEasedProgress progress
    let current := from_ + (to_ - from_) * easeProgress
    if progress < 1 then
      AEvent.update current progress :: animate startTime duration from_ to_ rest
    else
      [AEvent.update current progress, AEvent.update to_ 1, AEvent.complete]

/-- Extract the progress argument of an onUpdate event. -/
def updProgress : AEvent → Option ℚ
  | .update _ p => some p
  | .complete => none

/-- The sequence of progress values the animate loop passes to onUpdate. -/
def progressList (startTime duration : ℚ) : List ℚ → List ℚ
  | [] => []
  | currentTime :: rest =>
    let progress := min ((currentTime - startTime) / duration) 1
    if progress < 1 then progress :: progressList startTime duration rest
    else [progress, 1]

/- Section 3: controller-level scheduling model, for cancellation.
An animation session is identified by the order of the animate calls; the
controller field animationFrame holds the pending frame request, which
always belongs to the most recently started session, so the scheduler state
is the optional pending session.  A frame event runs the pending session
callback; an animate event cancels any pending request (the source checks
this.animationFrame and calls cancelFrame) and schedules the new session. -/

/-- One animation session: its identity plus the captured start time and
the duration read from the controller. -/
structure Session where
  id : ℕ
  startTime : ℚ
  duration : ℚ
deriving DecidableEq

/-- Controller-plus-scheduler state: the pending frame request (owned by at
most one session), the ids of sessions whose onComplete has fired, and the
id the next animate call will allocate. -/
structure AnimSys where
  pending : Option Session
  completions : List ℕ
  nextId : ℕ
deriving DecidableEq

/-- External events driving the controller: an animate call (with the
current time as captured startTime and the duration), or the scheduler
firing a frame at a timestamp. -/
inductive SysEv where
  | animateCall (startTime duration : ℚ)
  | frame (t : ℚ)

/-- One step of the controller model.  animateCall cancels the pending
request, if any, and schedules the first frame of a fresh session.  frame
runs the pending session: while progress < 1 it reschedules itself (the
request stays with the same session), otherwise the session completes, its
onComplete fires and no further frame is requested. -/
def sysStep (st : AnimSys) : SysEv → AnimSys
  | .animateCall s d =>
    { pending := some { id := st.nextId, startTime := s, duration := d }
      completions := st.completions
      nextId := st.nextId + 1 }
  | .frame t =>
    match st.pending with
    | none => st
    | some sess =>
      let progress := min ((t - sess.startTime) / sess.duration) 1
      if progress < 1 then st
      else
        { st with pending := none, completions := st.completions ++ [sess.id] }

/-- Run a list of events through the controller model. -/
def sysRun (st : AnimSys) : List SysEv → AnimSys
  | [] => st
  | e :: es => sysRun (sysStep st e) es

/- Section 4: breakpoint classifier (utils.getBreakpoint). -/

/-- The four breakpoint labels the classifier returns (the source returns
the corresponding lowercase strings). -/
inductive Breakpoint where
  | small
  | mobile
  | tablet
  | desktop
deriving DecidableEq

/-- The responsive part of the configuration (config.responsive.breakpoints). -/
structure Breakpoints where
  mobile : ℚ
  tablet : ℚ
  desktop : ℚ
deriving DecidableEq

/-- Default breakpoints: mobile 480, tablet 768, desktop 1024. -/
def configBreakpoints : Breakpoints :=
  { mobile := 480, tablet := 768, desktop := 1024 }

/-- utils.getBreakpoint, with the viewport width passed explicitly (the
source reads it from the document). -/
def getBreakpoint (width : ℚ) (bp : Breakpoints) : Breakpoint :=
  if width < bp.mobile then Breakpoint.small
  else if width < bp.tablet then Breakpoint.mobile
  else if width < bp.desktop then Breakpoint.tablet
  else Breakpoint.desktop

/- Section 5: native listener registry, for destroy.
The DOM removes a listener only when the very same function object that was
registered is passed again; every arrow function literal the source
evaluates yields a fresh closure object.  Closures are therefore modelled
by the order of their creation: a counter allocates a fresh identity for
each arrow function literal evaluated. -/

/-- The native event names the handler attaches to. -/
inductive EvName where
  | touchstart
  | touchmove
  | touchend
  | mousedown
  | mousemove
  | mouseup
deriving DecidableEq

/-- element.addEventListener: appends the (event, closure) registration. -/
def addEventListener (l : List (EvName × ℕ)) (ev : EvName) (closure : ℕ) :
    List (EvName × ℕ) :=
  l ++ [(ev, closure)]

/-- element.removeEventListener: removes a registration only when both the
event name and the very same closure identity match. -/
def removeEventListener (l : List (EvName × ℕ)) (ev : EvName) (closure : ℕ) :
    List (EvName × ℕ) :=
  l.filter (fun p => !(p.1 == ev && p.2 == closure))

/-- A TouchHandler as seen by the DOM: the element listener registrations,
the counter allocating the next closure identity, and the registered user
callbacks (opaque identities, per the on method). -/
structure DomTouchHandler where
  listeners : List (EvName × ℕ)
  nextClosure : ℕ
  callbacks : List ℕ
deriving DecidableEq

/-- setupListeners: six addEventListener calls, each with a freshly created
arrow-function closure. -/
def setupListeners (h : DomTouchHandler) : DomTouchHandler :=
  let l := addEventListener h.listeners EvName.touchstart h.nextClosure
  let l := addEventListener l EvName.touchmove (h.nextClosure + 1)
  let l := addEventListener l EvName.touchend (h.nextClosure + 2)
  let l := addEventListener l EvName.mousedown (h.nextClosure + 3)
  let l := addEventListener l EvName.mousemove (h.nextClosure + 4)
  let l := addEventListener l EvName.mouseup (h.nextClosure + 5)
  { h with listeners := l, nextClosure := h.nextClosure + 6 }

/-- destroy: three removeEventListener calls whose arguments are again
freshly created arrow-function closures (the source creates new ones at
the call site), then the callbacks map is cleared.  The three mouse
listeners are not even mentioned. -/
def destroy (h : DomTouchHandler) : DomTouchHandler :=
  let l := removeEventListener h.listeners EvName.touchstart h.nextClosure
  let l := removeEventListener l EvName.touchmove (h.nextClosure + 1)
  let l := removeEventListener l EvName.touchend (h.nextClosure + 2)
  { h with listeners := l, nextClosure := h.nextClosure + 3, callbacks := [] }

/- Theorems. -/

/-- Soundness of the square-root elimination: for a nonnegative radicand
the boolean sqrtGtB a t agrees with the real comparison t < sqrt a used by
the source. -/
theorem sqrtGtB_correct (a t : ℚ) :
    sqrtGtB a t = true ↔ (t : ℝ) < Real.sqrt (a : ℝ) := by
  unfold sqrtGtB
  rcases lt_or_le t 0 with h | h
  · simp only [Bool.or_eq_true, decide_eq_true_eq]
    constructor
    · intro _
      exact lt_of_lt_of_le (by exact_mod_cast h) (Real.sqrt_nonneg _)
    · intro _
      exact Or.inl h
  · simp only [Bool.or_eq_true, decide_eq_true_eq]
    rw [Real.lt_sqrt (by exact_mod_cast h)]
    constructor
    · rintro (h1 | h2)
      · exact absurd h1 (not_lt.mpr h)
      · rw [sq]
        exact_mod_cast h2
    · intro h1
      refine Or.inr ?_
      have h2 : (t : ℝ) * t < a := by rw [← sq]; exact h1
      exact_mod_cast h2

/-- The hardcoded eased progress equals the Bezier polynomial of the spec
at p1y = 0 and p2y = 1. -/
theorem getEasedProgress_eq_spec (t : ℚ) :
    getEasedProgress t = specEasedProgress 0 1 t := by
  unfold getEasedProgress bezier specEasedProgress
  ring

/-- C6 (confirmed): breakpoint classification is a pure total function of
the viewport width into the four ordered labels, and with the default
thresholds 480 / 768 / 1024 it maps 400 to small, 480 and 767 to mobile,
768 and 1023 to tablet, and 1024 to desktop. -/
theorem breakpoint_classification :
    (∀ w : ℚ, getBreakpoint w configBreakpoints = Breakpoint.small ∨
      getBreakpoint w configBreakpoints = Breakpoint.mobile ∨
      getBreakpoint w configBreakpoints = Breakpoint.tablet ∨
      getBreakpoint w configBreakpoints = Breakpoint.desktop) ∧
    getBreakpoint 400 configBreakpoints = Breakpoint.small ∧
    getBreakpoint 480 configBreakpoints = Breakpoint.mobile ∧
    getBreakpoint 767 configBreakpoints = Breakpoint.mobile ∧
    getBreakpoint 768 configBreakpoints = Breakpoint.tablet ∧
    getBreakpoint 1023 configBreakpoints = Breakpoint.tablet ∧
    getBreakpoint 1024 configBreakpoints = Breakpoint.desktop := by
  refine ⟨?_, by decide, by decide, by decide, by decide, by decide, by decide⟩
  intro w
  unfold getBreakpoint
  split
  · exact Or.inl rfl
  split
  · exact Or.inr (Or.inl rfl)
  split
  · exact Or.inr (Or.inr (Or.inl rfl))
  · exact Or.inr (Or.inr (Or.inr rfl))

/-- C9 counterexample: with control-point y-values overridden to p1y = 1
and p2y = 0, the eased progress the claim prescribes differs at t = 1/4
from what the code computes, because getEasedProgress hardcodes p1y = 0
and p2y = 1 and never consults any configured easing value. -/
theorem easedProgress_not_configurable :
    getEasedProgress (1 / 4) ≠ specEasedProgress 1 0 (1 / 4) := by
  norm_num [getEasedProgress, bezier, specEasedProgress]

/-- C9 (amended): every value an animation session passes to onUpdate
equals from + (to - from) * easedProgress, with easedProgress the cubic
Bezier polynomial 3 (1-t)^2 t p1y + 3 (1-t) t^2 p2y + t^3 evaluated with
the raw progress plugged directly as the parameter, at the hardcoded
control-point y-values p1y = 0 and p2y = 1; the control points are not
configurable per instance. -/
theorem update_value_eased (s d f t : ℚ) (frames : List ℚ) :
    ∀ v p, AEvent.update v p ∈ animate s d f t frames →
      v = f + (t - f) * specEasedProgress 0 1 p := by
  induction frames with
  | nil =>
    intro v p h
    simp [animate] at h
  | cons c rest ih =>
    intro v p h
    simp only [animate] at h
    by_cases hlt : min ((c - s) / d) 1 < 1
    · rw [if_pos hlt] at h
      rcases List.mem_cons.mp h with h1 | h2
      · cases h1
        rw [getEasedProgress_eq_spec]
      · exact ih v p h2
    · rw [if_neg hlt] at h
      rcases List.mem_cons.mp h with h1 | h2
      · cases h1
        rw [getEasedProgress_eq_spec]
      rcases List.mem_cons.mp h2 with h3 | h4
      · cases h3
        have hs1 : specEasedProgress 0 1 1 = 1 := by
          norm_num [specEasedProgress]
        rw [hs1]
        ring
      · simp at h4

/-- Witness for update_value_eased: the completed run with from = 0,
to = 10 contains the update event (10, 1), whose value satisfies the eased
interpolation identity. -/
theorem update_value_eased_witness :
    (10 : ℚ) = 0 + (10 - 0) * specEasedProgress 0 1 1 := by
  have hm : AEvent.update 10 1 ∈ animate 0 300 0 10 [300] := by
    norm_num [animate, getEasedProgress, bezier]
  exact update_value_eased 0 300 0 10 [300] 10 1 hm

/-- C4 (code bug): destroy does not detach the native listeners.  It calls
removeEventListener with freshly created closures (identities 6, 7 and 8,
which were never registered) and never mentions the mouse listeners, so all
six registrations made by setupListeners survive and the handler methods
keep running on later native events; only the callbacks map is cleared. -/
theorem destroy_listeners_still_attached :
    (destroy (setupListeners { listeners := [], nextClosure := 0, callbacks := [7] })).listeners
      = [(EvName.touchstart, 0), (EvName.touchmove, 1), (EvName.touchend, 2),
         (EvName.mousedown, 3), (EvName.mousemove, 4), (EvName.mouseup, 5)] ∧
    (destroy (setupListeners { listeners := [], nextClosure := 0, callbacks := [7] })).callbacks
      = [] := by
  decide

/-- C10 (confirmed): while handling a touch move the velocity is written
only when the elapsed time since the gesture start is strictly positive;
when it is zero (or negative) the previously stored velocity is kept, so
the displacement-by-time division is never performed with a nonpositive
elapsed time. -/
theorem velocity_update_guarded (touch : Point) (rest : List Point) (now : ℚ)
    (st : TouchHandler) (h : now - st.touchStart.time ≤ 0) :
    ((onTouchMove (touch :: rest) now st).1).velocity = st.velocity := by
  have hneg : ¬ (0 < now - st.touchStart.time) := not_lt.mpr h
  simp only [onTouchMove, if_neg hneg]
  split <;> split <;> rfl

/-- Witness for velocity_update_guarded: a dragging handler whose gesture
started at time 5 receives a move at time 5; the stored velocity (3, 4) is
kept. -/
theorem velocity_update_guarded_witness :
    ((onTouchMove [{ x := 100, y := 100 }] 5
      { initTouchHandler with touchStart := { x := 0, y := 0, time := 5 }, velocity := { x := 3, y := 4 }, isDragging := true }).1).velocity
      = { x := 3, y := 4 } :=
  velocity_update_guarded { x := 100, y := 100 } [] 5 _ (by norm_num [initTouchHandler])

/-- C1 counterexample: the session with duration 300 from 0 to 10, driven
by the single frame timestamp 300, fires onUpdate with value 10 = to and
progress 1 twice, not exactly once: the regular per-frame update of the
completing frame already carries (to, 1), and the explicit final call
repeats it. -/
theorem animate_final_update_twice :
    ((animate 0 300 0 10 [300]).count (AEvent.update 10 1)) ≠ 1 := by
  norm_num [animate, getEasedProgress, bezier, List.count_cons, List.count_nil]

/-- C1 (amended): for every duration d > 0 and every value pair, a session
driven to completion (some delivered frame timestamp reaches
startTime + duration) produces a trace that ends with onUpdate fired twice
with value to and progress 1 - once by the regular per-frame path, once by
the explicit final call - followed by onComplete, fired exactly once,
strictly after both; every earlier onUpdate has progress strictly below 1. -/
theorem animate_completion_trace (s d f t : ℚ) (frames : List ℚ) (hd2 : 0 < d)
    (hfr : ∃ c ∈ frames, s + d ≤ c) :
    ∃ pre, animate s d f t frames
        = pre ++ [AEvent.update t 1, AEvent.update t 1, AEvent.complete]
      ∧ (∀ v p, AEvent.update v p ∈ pre → p < 1)
      ∧ AEvent.complete ∉ pre := by
  revert hfr
  induction frames with
  | nil =>
    intro hfr
    simp at hfr
  | cons c rest ih =>
    intro hfr
    by_cases hlt : min ((c - s) / d) 1 < 1
    · obtain ⟨c0, hc0, hle⟩ := hfr
      have hc0r : c0 ∈ rest := by
        rcases List.mem_cons.mp hc0 with rfl | hr
        · exfalso
          have h1 : (1 : ℚ) ≤ (c0 - s) / d := by
            rw [le_div_iff₀ hd2]
            linarith
          have h2 : min ((c0 - s) / d) 1 = 1 := min_eq_right h1
          rw [h2] at hlt
          exact lt_irrefl 1 hlt
        · exact hr
      obtain ⟨pre, heq, hpre, hnc⟩ := ih ⟨c0, hc0r, hle⟩
      refine ⟨AEvent.update (f + (t - f) * getEasedProgress (min ((c - s) / d) 1))
        (min ((c - s) / d) 1) :: pre, ?_, ?_, ?_⟩
      · simp only [animate]
        rw [if_pos hlt, heq]
        simp
      · intro v p hp
        rcases List.mem_cons.mp hp with h1 | h2
        · cases h1
          exact hlt
        · exact hpre v p h2
      · simp only [List.mem_cons]
        rintro (h1 | h2)
        · exact AEvent.noConfusion h1
        · exact hnc h2
    · have hp1 : min ((c - s) / d) 1 = 1 :=
        le_antisymm (min_le_right _ _) (not_lt.mp hlt)
      refine ⟨[], ?_, by simp, by simp⟩
      simp only [animate]
      rw [if_neg hlt, hp1]
      have hg : getEasedProgress 1 = 1 := by norm_num [getEasedProgress, bezier]
      rw [hg]
      have hv : f + (t - f) * 1 = t := by ring
      rw [hv]
      simp

/-- Witness for animate_completion_trace at the concrete session of the
counterexample. -/
theorem animate_completion_trace_witness :
    ∃ pre, animate 0 300 0 10 [300]
        = pre ++ [AEvent.update 10 1, AEvent.update 10 1, AEvent.complete]
      ∧ (∀ v p, AEvent.update v p ∈ pre → p < 1)
      ∧ AEvent.complete ∉ pre :=
  animate_completion_trace 0 300 0 10 [300] (by norm_num) ⟨300, by simp, by norm_num⟩

/-- onTouchMove leaves the options and the recorded start point unchanged. -/
theorem onTouchMove_pres (ts : List Point) (now : ℚ) (st : TouchHandler) :
    ((onTouchMove ts now st).1).options = st.options ∧
    ((onTouchMove ts now st).1).touchStart = st.touchStart := by
  cases ts with
  | nil => exact ⟨rfl, rfl⟩
  | cons touch rest =>
    simp only [onTouchMove]
    split <;> split <;> exact ⟨rfl, rfl⟩

/-- Once the dragging flag is set it survives any further touch move. -/
theorem onTouchMove_dragging_mono (ts : List Point) (now : ℚ) (st : TouchHandler)
    (h : st.isDragging = true) :
    ((onTouchMove ts now st).1).isDragging = true := by
  cases ts with
  | nil => exact h
  | cons touch rest =>
    simp only [onTouchMove]
    split <;> split <;> simp_all

/-- A touch move whose first touch exceeds the threshold from the recorded
start point sets the dragging flag. -/
theorem onTouchMove_trig (ts : List Point) (now : ℚ) (st : TouchHandler)
    (h : trig st.touchStart.x st.touchStart.y st.options.threshold (ts, now) = true) :
    ((onTouchMove ts now st).1).isDragging = true := by
  cases ts with
  | nil => simp [trig] at h
  | cons touch rest =>
    simp only [trig] at h
    simp only [onTouchMove, h]
    split <;> simp_all

/-- Every event a touch move emits is a touchmove event. -/
theorem onTouchMove_events (ts : List Point) (now : ℚ) (st : TouchHandler) :
    ∀ e ∈ (onTouchMove ts now st).2, e.isTouchmove = true := by
  cases ts with
  | nil =>
    intro e he
    simp [onTouchMove] at he
  | cons touch rest =>
    intro e he
    simp only [onTouchMove] at he
    split at he <;> split at he <;> simp_all [TEvent.isTouchmove]

/-- runMoves leaves the options and the recorded start point unchanged. -/
theorem runMoves_pres (moves : List (List Point × ℚ)) (st : TouchHandler) :
    ((runMoves st moves).1).options = st.options ∧
    ((runMoves st moves).1).touchStart = st.touchStart := by
  induction moves generalizing st with
  | nil => exact ⟨rfl, rfl⟩
  | cons m rest ih =>
    obtain ⟨ts, now⟩ := m
    simp only [runMoves]
    obtain ⟨h1, h2⟩ := ih (onTouchMove ts now st).1
    obtain ⟨g1, g2⟩ := onTouchMove_pres ts now st
    exact ⟨h1.trans g1, h2.trans g2⟩

/-- Once set, the dragging flag survives a whole list of touch moves. -/
theorem runMoves_dragging_mono (moves : List (List Point × ℚ)) (st : TouchHandler)
    (h : st.isDragging = true) :
    ((runMoves st moves).1).isDragging = true := by
  induction moves generalizing st with
  | nil => exact h
  | cons m rest ih =>
    obtain ⟨ts, now⟩ := m
    simp only [runMoves]
    exact ih _ (onTouchMove_dragging_mono ts now st h)

/-- If some move of the list exceeds the threshold from the recorded start
point, the final state of the move list is dragging. -/
theorem runMoves_trig (moves : List (List Point × ℚ)) (st : TouchHandler)
    (h : ∃ m ∈ moves, trig st.touchStart.x st.touchStart.y st.options.threshold m = true) :
    ((runMoves st moves).1).isDragging = true := by
  induction moves generalizing st with
  | nil => simp at h
  | cons m0 rest ih =>
    obtain ⟨ts, now⟩ := m0
    simp only [runMoves]
    obtain ⟨m, hm, ht⟩ := h
    rcases List.mem_cons.mp hm with rfl | hr
    · exact runMoves_dragging_mono rest _ (onTouchMove_trig ts now st ht)
    · refine ih _ ⟨m, hr, ?_⟩
      obtain ⟨g1, g2⟩ := onTouchMove_pres ts now st
      rw [g1, g2]
      exact ht

/-- Every event a list of touch moves emits is a touchmove event. -/
theorem runMoves_events (moves : List (List Point × ℚ)) (st : TouchHandler) :
    ∀ e ∈ (runMoves st moves).2, e.isTouchmove = true := by
  induction moves generalizing st with
  | nil =>
    intro e he
    simp [runMoves] at he
  | cons m rest ih =>
    obtain ⟨ts, now⟩ := m
    intro e he
    simp only [runMoves] at he
    rcases List.mem_append.mp he with h1 | h2
    · exact onTouchMove_events ts now st e h1
    · exact ih _ e h2

/-- A move list none of whose members reaches the threshold leaves a
non-dragging handler completely unchanged and emits nothing. -/
theorem runMoves_still (moves : List (List Point × ℚ)) (st : TouchHandler)
    (h : st.isDragging = false)
    (hm : ∀ m ∈ moves, trig st.touchStart.x st.touchStart.y st.options.threshold m = false) :
    runMoves st moves = (st, []) := by
  induction moves with
  | nil => rfl
  | cons m0 rest ih =>
    obtain ⟨ts, now⟩ := m0
    have hstep : onTouchMove ts now st = (st, []) := by
      cases ts with
      | nil => rfl
      | cons touch r2 =>
        have hc : sqrtGtB ((touch.x - st.touchStart.x) * (touch.x - st.touchStart.x) +
            (touch.y - st.touchStart.y) * (touch.y - st.touchStart.y))
            st.options.threshold = false := by
          have := hm (touch :: r2, now) (List.mem_cons_self _ _)
          simpa [trig] using this
        simp [onTouchMove, hc, h]
    have ihr := ih (fun m hm2 => hm m (List.mem_cons_of_mem _ hm2))
    simp [runMoves, hstep, ihr]

/-- onTouchEnd on a dragging handler: one swipe event with the clamped
velocity, then the terminal touchend event. -/
theorem onTouchEnd_swipe (st : TouchHandler) (h : st.isDragging = true) :
    onTouchEnd st =
      ({ st with isDragging := false, velocity := { x := 0, y := 0 } },
       [TEvent.swipe st.touchCurrent.x st.touchCurrent.y
          (min st.velocity.x st.options.maxVelocity)
          (min st.velocity.y st.options.maxVelocity), TEvent.touchend]) := by
  simp [onTouchEnd, h]

/-- onTouchEnd on a non-dragging handler: one tap event at the start point,
then the terminal touchend event. -/
theorem onTouchEnd_tap (st : TouchHandler) (h : st.isDragging = false) :
    onTouchEnd st =
      ({ st with isDragging := false, velocity := { x := 0, y := 0 } },
       [TEvent.tap st.touchStart.x st.touchStart.y, TEvent.touchend]) := by
  simp [onTouchEnd, h]

/-- A non-dragging handler ignores every mouse move. -/
theorem runMouseMoves_still (moves : List (Point × ℚ)) (st : TouchHandler)
    (h : st.isDragging = false) : runMouseMoves st moves = (st, []) := by
  induction moves with
  | nil => rfl
  | cons m rest ih =>
    obtain ⟨p, now⟩ := m
    have hstep : onMouseMove p.x p.y now st = (st, []) := by
      simp [onMouseMove, h]
    simp [runMouseMoves, hstep, ih]

/-- Decomposition of a gesture whose move list ends in the dragging state:
the trace is touchstart, the touchmove events, one swipe with each velocity
axis clamped from above by Math.min, and touchend. -/
theorem runGesture_swipe_events (x y t0 : ℚ) (moves : List (List Point × ℚ))
    (st0 : TouchHandler)
    (hdrag : ((runMoves (onTouchStart x y t0 st0).1 moves).1).isDragging = true) :
    (runGesture x y t0 moves st0).2
      = TEvent.touchstart x y ::
          ((runMoves (onTouchStart x y t0 st0).1 moves).2 ++
            [TEvent.swipe ((runMoves (onTouchStart x y t0 st0).1 moves).1).touchCurrent.x
               ((runMoves (onTouchStart x y t0 st0).1 moves).1).touchCurrent.y
               (min ((runMoves (onTouchStart x y t0 st0).1 moves).1).velocity.x
                 st0.options.maxVelocity)
               (min ((runMoves (onTouchStart x y t0 st0).1 moves).1).velocity.y
                 st0.options.maxVelocity),
             TEvent.touchend]) := by
  have hop : ((runMoves (onTouchStart x y t0 st0).1 moves).1).options = st0.options :=
    (runMoves_pres moves _).1
  simp only [runGesture, onTouchEnd_swipe _ hdrag]
  rw [hop]
  simp [onTouchStart]

/-- C2 (amended): every touch gesture some of whose moves exceeds the
configured threshold emits exactly one swipe event at release, and the
velocity the swipe carries is clamped from above only: velocityX and
velocityY are each at most maxVelocity, but since the source uses Math.min
alone, negative velocities pass through unclamped and their magnitude can
exceed the configured maximum. -/
theorem swipe_velocity_clamped_above (x y t0 : ℚ) (moves : List (List Point × ℚ))
    (st0 : TouchHandler)
    (h : ∃ m ∈ moves, trig x y st0.options.threshold m = true) :
    ((runGesture x y t0 moves st0).2.countP TEvent.isSwipe) = 1 ∧
    ∀ a b vx vy, TEvent.swipe a b vx vy ∈ (runGesture x y t0 moves st0).2 →
      vx ≤ st0.options.maxVelocity ∧ vy ≤ st0.options.maxVelocity := by
  have hdrag : ((runMoves (onTouchStart x y t0 st0).1 moves).1).isDragging = true :=
    runMoves_trig moves _ h
  rw [runGesture_swipe_events x y t0 moves st0 hdrag]
  constructor
  · rw [List.countP_cons, List.countP_append]
    have hz : (runMoves (onTouchStart x y t0 st0).1 moves).2.countP TEvent.isSwipe = 0 := by
      rw [List.countP_eq_zero]
      intro e he
      have := runMoves_events moves _ e he
      cases e <;> simp_all [TEvent.isTouchmove, TEvent.isSwipe]
    rw [hz]
    simp [List.countP_cons, List.countP_nil, TEvent.isSwipe]
  · intro a b vx vy hmem
    rcases List.mem_cons.mp hmem with h1 | h2
    · exact TEvent.noConfusion h1
    rcases List.mem_append.mp h2 with h3 | h4
    · have := runMoves_events moves _ _ h3
      simp [TEvent.isTouchmove] at this
    rcases List.mem_cons.mp h4 with h5 | h6
    · injection h5 with e1 e2 e3 e4
      subst e3
      subst e4
      exact ⟨min_le_right _ _, min_le_right _ _⟩
    · rcases List.mem_singleton.mp h6 with h7
      exact TEvent.noConfusion h7

/-- Witness for swipe_velocity_clamped_above on a concrete leftward
gesture: exactly one swipe is emitted. -/
theorem swipe_velocity_clamped_above_witness :
    ((runGesture 0 0 0 [([{ x := -100, y := 0 }], 1)] initTouchHandler).2.countP
      TEvent.isSwipe) = 1 :=
  (swipe_velocity_clamped_above 0 0 0 [([{ x := -100, y := 0 }], 1)] initTouchHandler
    ⟨([{ x := -100, y := 0 }], 1), by simp,
      by norm_num [trig, sqrtGtB, initTouchHandler, configTouch]⟩).1

/-- C2 counterexample: a leftward gesture of 100 px in 1 ms produces a
swipe whose velocityX is -100, whose magnitude exceeds the configured
maximum 10: Math.min clamps only the positive side. -/
theorem swipe_negative_velocity_unclamped :
    TEvent.swipe (-100) 0 (-100) 0
        ∈ (runGesture 0 0 0 [([{ x := -100, y := 0 }], 1)] initTouchHandler).2 ∧
    ¬ (|(-100 : ℚ)| ≤ initTouchHandler.options.maxVelocity) := by
  constructor
  · norm_num [runGesture, runMoves, onTouchStart, onTouchMove, onTouchEnd,
      initTouchHandler, configTouch, sqrtGtB]
  · norm_num [initTouchHandler, configTouch]

/-- C5 (confirmed): a touch gesture none of whose moves ever exceeds the
threshold - in particular one whose distance exactly equals the threshold,
since the source test is strict - emits exactly one tap event, at the start
point, and no swipe: the full trace is touchstart, tap, touchend. -/
theorem tap_when_within_threshold (x y t0 : ℚ) (moves : List (List Point × ℚ))
    (st0 : TouchHandler)
    (h : ∀ m ∈ moves, trig x y st0.options.threshold m = false) :
    (runGesture x y t0 moves st0).2
      = [TEvent.touchstart x y, TEvent.tap x y, TEvent.touchend] := by
  have hst : runMoves (onTouchStart x y t0 st0).1 moves = ((onTouchStart x y t0 st0).1, []) :=
    runMoves_still moves _ rfl h
  simp only [runGesture, hst]
  rw [onTouchEnd_tap _ rfl]
  simp [onTouchStart]

/-- Witness for tap_when_within_threshold: a move to (6, 8), at distance
exactly 10 = threshold from the start, still yields a tap. -/
theorem tap_when_within_threshold_witness :
    (runGesture 0 0 0 [([{ x := 6, y := 8 }], 1)] initTouchHandler).2
      = [TEvent.touchstart 0 0, TEvent.tap 0 0, TEvent.touchend] :=
  tap_when_within_threshold 0 0 0 [([{ x := 6, y := 8 }], 1)] initTouchHandler (by
    intro m hm
    rw [List.mem_singleton] at hm
    subst hm
    norm_num [trig, sqrtGtB, initTouchHandler, configTouch])

/-- C3 counterexample: after mousedown at the origin, a mousemove to
(100, 0) - far beyond the threshold 10, as the first conjunct certifies -
is not processed at all: no touchmove event is emitted, dragging is never
entered, no swipe can follow, and release produces a tap.  The claim that
mouse movement inside a mouse-down-initiated gesture is measured against
the threshold and enters dragging is false. -/
theorem mouse_drag_not_entered :
    sqrtGtB ((100 : ℚ) * 100 + 0 * 0) initTouchHandler.options.threshold = true ∧
    (runMouseGesture 0 0 0 [({ x := 100, y := 0 }, 1)] initTouchHandler).2.countP
      TEvent.isTouchmove = 0 ∧
    (runMouseGesture 0 0 0 [({ x := 100, y := 0 }, 1)] initTouchHandler).2.countP
      TEvent.isSwipe = 0 ∧
    (runMouseGesture 0 0 0 [({ x := 100, y := 0 }, 1)] initTouchHandler).2.countP
      TEvent.isTap = 1 := by
  refine ⟨?_, ?_, ?_, ?_⟩
  · norm_num [sqrtGtB, initTouchHandler, configTouch]
  · norm_num [runMouseGesture, runMouseMoves, onMouseDown, onMouseMove, onMouseUp,
      onTouchStart, onTouchEnd, initTouchHandler, List.countP_cons, List.countP_nil,
      TEvent.isTouchmove]
  · norm_num [runMouseGesture, runMouseMoves, onMouseDown, onMouseMove, onMouseUp,
      onTouchStart, onTouchEnd, initTouchHandler, List.countP_cons, List.countP_nil,
      TEvent.isSwipe]
  · norm_num [runMouseGesture, runMouseMoves, onMouseDown, onMouseMove, onMouseUp,
      onTouchStart, onTouchEnd, initTouchHandler, List.countP_cons, List.countP_nil,
      TEvent.isTap]

/-- C3 (amended): mouse movement is processed only while isDragging is
already true; since mousedown resets isDragging to false and onMouseMove
returns before the threshold check whenever it is false, a purely
mouse-driven gesture can never enter dragging: every mouse move is ignored
and mouse-up always emits a tap at the start point.  (Mouse movement
outside an active drag is ignored, as the claim says; movement inside a
mouse-down-initiated gesture is ignored too, which the claim denies.) -/
theorem mouse_moves_ignored (x y t0 : ℚ) (moves : List (Point × ℚ)) (st0 : TouchHandler) :
    (runMouseGesture x y t0 moves st0).2
      = [TEvent.touchstart x y, TEvent.tap x y, TEvent.touchend] ∧
    ((runMouseGesture x y t0 moves st0).1).isDragging = false := by
  have hmm : runMouseMoves (onMouseDown x y t0 st0).1 moves
      = ((onMouseDown x y t0 st0).1, []) :=
    runMouseMoves_still moves _ rfl
  refine ⟨?_, rfl⟩
  simp only [runMouseGesture, hmm, onMouseUp]
  rw [onTouchEnd_tap _ rfl]
  simp [onMouseDown, onTouchStart]

/-- Invariant of the controller model: running any event list can only add
completions whose session id is at least n, provided the pending session
(if any) and the id allocator are both at n or above. -/
theorem sysRun_completions_bound (n : ℕ) (evs : List SysEv) (st : AnimSys)
    (hp : ∀ sess, st.pending = some sess → n ≤ sess.id)
    (hn : n ≤ st.nextId) :
    ∀ m ∈ (sysRun st evs).completions, m ∈ st.completions ∨ n ≤ m := by
  induction evs generalizing st with
  | nil =>
    intro m hm
    exact Or.inl hm
  | cons e es ih =>
    intro m hm
    simp only [sysRun] at hm
    cases e with
    | animateCall s d =>
      have hstep := ih (sysStep st (SysEv.animateCall s d)) ?_ ?_ m hm
      · exact hstep
      · intro sess hs
        simp only [sysStep] at hs
        injection hs with h2
        subst h2
        exact hn
      · exact le_trans hn (Nat.le_succ _)
    | frame t =>
      cases hpend : st.pending with
      | none =>
        have hstone : sysStep st (SysEv.frame t) = st := by
          simp [sysStep, hpend]
        rw [hstone] at hm
        exact ih st hp hn m hm
      | some sess =>
        by_cases hlt : min ((t - sess.startTime) / sess.duration) 1 < 1
        · have hstone : sysStep st (SysEv.frame t) = st := by
            simp [sysStep, hpend, hlt]
          rw [hstone] at hm
          exact ih st hp hn m hm
        · have hstone : sysStep st (SysEv.frame t)
              = { st with pending := none, completions := st.completions ++ [sess.id] } := by
            simp [sysStep, hpend, hlt]
          rw [hstone] at hm
          have hstep := ih _ ?_ ?_ m hm
          · rcases hstep with h1 | h2
            · rcases List.mem_append.mp h1 with h3 | h4
              · exact Or.inl h3
              · rw [List.mem_singleton] at h4
                subst h4
                exact Or.inr (hp sess hpend)
            · exact Or.inr h2
          · intro s2 hs2
            simp at hs2
          · exact hn

/-- C7 (confirmed): starting a new animation B while animation A is in
flight first cancels the pending frame request (which belongs to A) and
only then schedules the first frame of B, so in the whole subsequent run
A's onComplete never fires; and since the controller holds at most one
pending request, no two interpolation loops ever run concurrently.  The
hypotheses that A's id is below the allocator and A is not yet completed
hold in every reachable state, because ids are allocated by the strictly
increasing nextId counter. -/
theorem animate_cancels_inflight (st : AnimSys) (A : Session) (s d : ℚ)
    (evs : List SysEv) (hA : st.pending = some A) (hid : A.id < st.nextId)
    (hnc : A.id ∉ st.completions) :
    (sysStep st (SysEv.animateCall s d)).pending
        = some { id := st.nextId, startTime := s, duration := d } ∧
    A.id ∉ (sysRun (sysStep st (SysEv.animateCall s d)) evs).completions := by
  refine ⟨rfl, ?_⟩
  intro hmem
  have hb := sysRun_completions_bound st.nextId evs (sysStep st (SysEv.animateCall s d))
    ?_ (Nat.le_succ _) A.id hmem
  · rcases hb with h1 | h2
    · exact hnc h1
    · exact absurd h2 (not_le.mpr hid)
  · intro sess hs
    injection hs with h2
    subst h2
    exact le_refl _

/-- C7 witness: with session 0 pending, calling animate allocates session 1
as the new pending request, and session 0 never completes, even when a
frame late enough to finish any session fires afterwards. -/
theorem animate_cancels_inflight_witness :
    (sysStep { pending := some { id := 0, startTime := 0, duration := 300 }, completions := [], nextId := 1 } (SysEv.animateCall 100 200)).pending
      = some { id := 1, startTime := 100, duration := 200 } ∧
    (0 : ℕ)
      ∉ (sysRun (sysStep { pending := some { id := 0, startTime := 0, duration := 300 }, completions := [], nextId := 1 } (SysEv.animateCall 100 200))
          [SysEv.frame 500]).completions :=
  animate_cancels_inflight _ { id := 0, startTime := 0, duration := 300 } 100 200
    [SysEv.frame 500] rfl (by decide) (by decide)

/-- The progress components of the update events of a run are exactly the
progressList of its frame timestamps. -/
theorem animate_filterMap_progress (s d f t : ℚ) (frames : List ℚ) :
    (animate s d f t frames).filterMap updProgress = progressList s d frames := by
  induction frames with
  | nil => rfl
  | cons c rest ih =>
    simp only [animate, progressList]
    by_cases hlt : min ((c - s) / d) 1 < 1
    · rw [if_pos hlt, if_pos hlt]
      simp [updProgress, ih]
    · rw [if_neg hlt, if_neg hlt]
      simp [updProgress]

/-- The first progress value of a nonempty frame list. -/
theorem progressList_head (s d c : ℚ) (rest : List ℚ) :
    (progressList s d (c :: rest)).head? = some (min ((c - s) / d) 1) := by
  simp only [progressList]
  split <;> rfl

/-- Every progress value is at most 1. -/
theorem progressList_le_one (s d : ℚ) (frames : List ℚ) :
    ∀ p ∈ progressList s d frames, p ≤ 1 := by
  induction frames with
  | nil =>
    intro p hp
    simp [progressList] at hp
  | cons c rest ih =>
    intro p hp
    simp only [progressList] at hp
    split at hp
    · rcases List.mem_cons.mp hp with rfl | h2
      · exact min_le_right _ _
      · exact ih p h2
    · rcases List.mem_cons.mp hp with rfl | h2
      · exact min_le_right _ _
      · rw [List.mem_singleton] at h2
        subst h2
        exact le_refl 1

/-- For positive duration and nondecreasing frame timestamps the progress
values are nondecreasing. -/
theorem progressList_chain (s d : ℚ) (hd2 : 0 < d) (frames : List ℚ)
    (hc : frames.Chain' (· ≤ ·)) :
    (progressList s d frames).Chain' (· ≤ ·) := by
  induction frames with
  | nil => simp [progressList]
  | cons c rest ih =>
    rw [List.chain'_cons'] at hc
    obtain ⟨hhead, htail⟩ := hc
    simp only [progressList]
    split
    · rw [List.chain'_cons']
      refine ⟨?_, ih htail⟩
      intro q hq
      cases rest with
      | nil => simp [progressList] at hq
      | cons c2 r2 =>
        rw [progressList_head] at hq
        rw [Option.mem_some_iff] at hq
        subst hq
        have hcc : c ≤ c2 := hhead c2 rfl
        have hdiv : (c - s) / d ≤ (c2 - s) / d := by
          apply div_le_div_of_nonneg_right ?_ hd2.le
          · linarith
        exact min_le_min hdiv (le_refl 1)
    · rw [List.chain'_pair]
      exact min_le_right _ _

/-- C8 (confirmed): within one animation session of positive duration,
for every nondecreasing sequence of frame timestamps the progress values
passed to consecutive onUpdate calls are nondecreasing and never exceed 1
(progress is min(elapsed / duration, 1), a monotone function of the
timestamp, and the final explicit call passes exactly 1). -/
theorem progress_monotone (s d f t : ℚ) (frames : List ℚ) (hd2 : 0 < d)
    (hc : frames.Chain' (· ≤ ·)) :
    ((animate s d f t frames).filterMap updProgress).Chain' (· ≤ ·) ∧
    ∀ p ∈ (animate s d f t frames).filterMap updProgress, p ≤ 1 := by
  rw [animate_filterMap_progress]
  exact ⟨progressList_chain s d hd2 frames hc, progressList_le_one s d frames⟩

/-- Witness for progress_monotone on the concrete two-frame session. -/
theorem progress_monotone_witness :
    ((animate 0 300 0 10 [0, 300]).filterMap updProgress).Chain' (· ≤ ·) :=
  (progress_monotone 0 300 0 10 [0, 300] (by norm_num)
    (by norm_num [List.chain'_cons, List.chain'_singleton])).1
